import Mathlib

/-!
Shallow embedding of the memory-management core of the pain runtime
(`src/allocator.rs` and `src/gc.rs`): the bump allocator, the fixed-size
memory pool, the arena, and the mark-and-sweep garbage collector.
Machine addresses are modelled as `Nat`; the host allocator (`std::alloc`)
is modelled by explicit address oracles passed to the operations that
call it, `none` standing for a failed host allocation.
-/

namespace PainRuntime

/-- Rounds `n` up to the next multiple of `a`.  For a power-of-two `a` and
64-bit-bounded inputs this is exactly the mask computation
`(n + a - 1) & !(a - 1)` used throughout the source. -/
def alignUp (n a : Nat) : Nat := (n + a - 1) / a * a

/-- The 8-byte rounding `(total_size + align - 1) & !(align - 1)` with
`align = 8` (gc.rs line 88 and lines 187-188). -/
def align8 (n : Nat) : Nat := alignUp n 8

/-- `std::mem::size_of::<GcHeader>()` on a 64-bit target: a `bool` plus a
`usize`, padded to the 8-byte `usize` alignment, is 16 bytes. -/
def headerSize : Nat := 16

/-- Doubling loop behind `nextPow2`; `fuel` bounds the number of doublings
(`n` doublings of 1 always reach `n`). -/
def nextPow2Go (fuel n p : Nat) : Nat :=
  match fuel with
  | 0 => p
  | fuel + 1 => if n ≤ p then p else nextPow2Go fuel n (p * 2)

/-- `usize::next_power_of_two`: the least power of two that is at least `n`
(1 for `n ≤ 1`). -/
def nextPow2 (n : Nat) : Nat := nextPow2Go n n 1

/-- Association-list lookup keyed by address: the value stored at key `a`,
modelling `HashMap::get` and raw header reads. -/
def assocFind {α : Type} (l : List (Nat × α)) (a : Nat) : Option α :=
  (l.find? (fun e => e.1 == a)).map (·.2)

/-- Association-list removal of the entry with key `a`, modelling
`HashMap::remove` and the release of a raw block. -/
def assocErase {α : Type} (l : List (Nat × α)) (a : Nat) : List (Nat × α) :=
  l.eraseP (fun e => e.1 == a)

/-- Association-list insertion replacing any entry with the same key,
modelling `HashMap::insert` and a raw store. -/
def assocInsert {α : Type} (l : List (Nat × α)) (a : Nat) (v : α) : List (Nat × α) :=
  (a, v) :: assocErase l a

/-- `BumpAllocator` (allocator.rs lines 8-13).  The Rust field `end` is
called `stop` here because `end` is reserved in Lean. -/
structure BumpAllocator where
  start : Nat
  current : Nat
  stop : Nat
  size : Nat
deriving DecidableEq

/-- `BumpAllocator::new` (allocator.rs lines 20-40).  `base` is the address
the host allocator returns for the backing block; `none` models a failed
host allocation. -/
def BumpAllocator.new (size : Nat) (base : Option Nat) : Option BumpAllocator :=
  if size = 0 then none
  else
    match base with
    | none => none
    | some b => some { start := b, current := b, stop := b + size, size := size }

/-- `BumpAllocator::allocate` (allocator.rs lines 44-65).  For a power-of-two
`align` the source computes the aligned address with the bit mask, which is
`alignUp`; for any other `align` the source's fallback `ptr::align_offset`
panics, so callers only ever pass powers of two and the theorems below
assume that. -/
def BumpAllocator.allocate (b : BumpAllocator) (size align : Nat) :
    Option Nat × BumpAllocator :=
  let alignedPtr := alignUp b.current align
  let newCurrent := alignedPtr + size
  if b.stop < newCurrent then (none, b)
  else (some alignedPtr, { b with current := newCurrent })

/-- `BumpAllocator::reset` (allocator.rs lines 68-70). -/
def BumpAllocator.reset (b : BumpAllocator) : BumpAllocator :=
  { b with current := b.start }

/-- `BumpAllocator::used` (allocator.rs lines 73-75). -/
def BumpAllocator.used (b : BumpAllocator) : Nat := b.current - b.start

/-- `BumpAllocator::capacity` (allocator.rs lines 78-80). -/
def BumpAllocator.capacity (b : BumpAllocator) : Nat := b.size

/-- `MemoryPool` (allocator.rs lines 93-98).  The `free_list` vector is kept
most-recently-pushed first, so `Vec::push`/`Vec::pop` become `List` cons and
head removal. -/
structure MemoryPool where
  block_size : Nat
  blocks : List Nat
  free_list : List Nat
  pool_size : Nat
deriving DecidableEq

/-- `MemoryPool::new` (allocator.rs lines 102-137); `base` is the host
address of the pool's backing block. -/
def MemoryPool.new (block_size capacity base : Nat) : Option MemoryPool :=
  if block_size = 0 ∨ capacity = 0 then none
  else
    let aligned := nextPow2 block_size
    let slots := (List.range capacity).map (fun i => base + i * aligned)
    some { block_size := aligned, blocks := slots,
           free_list := slots.reverse, pool_size := aligned * capacity }

/-- `MemoryPool::allocate` (allocator.rs lines 140-142): pop the most
recently pushed free slot (slot addresses are nonzero, so the source's
`NonNull` wrapping never fails). -/
def MemoryPool.allocate (p : MemoryPool) : Option Nat × MemoryPool :=
  match p.free_list with
  | [] => (none, p)
  | x :: rest => (some x, { p with free_list := rest })

/-- `self.blocks[0]`, the pool's base address (allocator.rs line 148);
every constructed pool has a nonempty `blocks` list. -/
def MemoryPool.poolStart (p : MemoryPool) : Nat := p.blocks.headD 0

/-- `MemoryPool::deallocate` (allocator.rs lines 145-157): range check, then
slot-alignment check, then push; an address failing either check is
silently dropped.  Lean's `n % 0 = n` makes the `% block_size = 0` test
agree with Rust's `is_multiple_of` also at `block_size = 0`. -/
def MemoryPool.deallocate (p : MemoryPool) (ptr : Nat) : MemoryPool :=
  if p.poolStart ≤ ptr ∧ ptr < p.poolStart + p.pool_size then
    if (ptr - p.poolStart) % p.block_size = 0 then
      { p with free_list := ptr :: p.free_list }
    else p
  else p

/-- `MemoryPool::free_count` (allocator.rs lines 160-162). -/
def MemoryPool.free_count (p : MemoryPool) : Nat := p.free_list.length

/-- `MemoryPool::allocated_count` (allocator.rs lines 165-167): `usize`
subtraction, truncated at zero here (in Rust an underflow would abort a
debug build and wrap in a release build). -/
def MemoryPool.allocated_count (p : MemoryPool) : Nat :=
  p.blocks.length - p.free_list.length

/-- `Arena` (allocator.rs lines 182-187). -/
structure Arena where
  allocators : List BumpAllocator
  current_allocator : Nat
  allocator_size : Nat
  pools : List MemoryPool
deriving DecidableEq

/-- `Arena::new` (allocator.rs lines 191-208): one bump allocator plus a
best-effort battery of 256-slot pools for block sizes 8/16/32/64/128.
`bumpBase` and `poolBases` are the host addresses backing the first
allocator and the five pools. -/
def Arena.new (allocator_size bumpBase : Nat) (poolBases : List Nat) : Option Arena :=
  match BumpAllocator.new allocator_size (some bumpBase) with
  | none => none
  | some first =>
      some { allocators := [first], current_allocator := 0,
             allocator_size := allocator_size,
             pools := (List.zip [8, 16, 32, 64, 128] poolBases).filterMap
               (fun sb => MemoryPool.new sb.1 256 sb.2) }

/-- The pool scan loop of `Arena::allocate` (allocator.rs lines 213-219).
A pool whose block size fits the request but whose free list is empty is
skipped and the scan continues with the remaining pools. -/
def poolLoop : List MemoryPool → Nat → Nat → Option Nat × List MemoryPool
  | [], _, _ => (none, [])
  | p :: ps, size, align =>
      if size ≤ p.block_size ∧ p.block_size % align = 0 then
        match p.allocate with
        | (some ptr, p1) => (some ptr, p1 :: ps)
        | (none, p1) =>
            let r := poolLoop ps size align
            (r.1, p1 :: r.2)
      else
        let r := poolLoop ps size align
        (r.1, p :: r.2)

/-- The bump-allocator part of `Arena::allocate` (allocator.rs lines
221-238), entered once no pool has served the request; `newBase` is the
host address for the replacement allocator if one has to be built.  An
out-of-range `current_allocator` index would abort in Rust; the arena
invariant keeps the index in range. -/
def Arena.allocateFromBumps (a : Arena) (size align : Nat) (newBase : Option Nat) :
    Option Nat × Arena :=
  match a.allocators.get? a.current_allocator with
  | none => (none, a)
  | some bump =>
      match bump.allocate size align with
      | (some ptr, bump1) =>
          (some ptr,
           { a with allocators := a.allocators.set a.current_allocator bump1 })
      | (none, bump1) =>
          match BumpAllocator.new (max a.allocator_size (size * 2)) newBase with
          | none =>
              (none, { a with allocators := a.allocators.set a.current_allocator bump1 })
          | some newAlloc =>
              match newAlloc.allocate size align with
              | (some ptr, newAlloc1) =>
                  (some ptr,
                   { a with
                     allocators :=
                       (a.allocators.set a.current_allocator bump1) ++ [newAlloc1],
                     current_allocator :=
                       (a.allocators.set a.current_allocator bump1).length })
              | (none, _) =>
                  (none, { a with allocators := a.allocators.set a.current_allocator bump1 })

/-- `Arena::allocate` (allocator.rs lines 211-239). -/
def Arena.allocate (a : Arena) (size align : Nat) (newBase : Option Nat) :
    Option Nat × Arena :=
  match poolLoop a.pools size align with
  | (some ptr, pools1) => (some ptr, { a with pools := pools1 })
  | (none, pools1) =>
      Arena.allocateFromBumps { a with pools := pools1 } size align newBase

/-- `GcHeader` (gc.rs lines 8-12). -/
structure GcHeader where
  marked : Bool
  size : Nat
deriving DecidableEq

/-- `GcObject` (gc.rs lines 15-18): the raw header address and the data
address handed to the client. -/
structure GcObject where
  header : Nat
  data : Nat
deriving DecidableEq

/-- `GarbageCollector` (gc.rs lines 54-59).  The `HashMap` from data address
to `(header, total allocated bytes)` is an association list with pairwise
distinct keys; the `HashSet` of roots is a list of addresses. -/
structure GarbageCollector where
  objects : List (Nat × GcHeader × Nat)
  roots : List Nat
  total_allocated : Nat
  threshold : Nat
deriving DecidableEq

/-- The data addresses of all tracked objects. -/
def GarbageCollector.keys (s : GarbageCollector) : List Nat := s.objects.map (·.1)

/-- The mark-reset pass at the top of `mark_phase` (gc.rs lines 144-147). -/
def resetMarks (l : List (Nat × GcHeader × Nat)) : List (Nat × GcHeader × Nat) :=
  l.map (fun e => (e.1, { e.2.1 with marked := false }, e.2.2))

/-- One `get_mut`-and-mark step of the worklist loop (gc.rs lines 160-162):
set the mark bit of the tracked object at address `a`, if any. -/
def markRoot (l : List (Nat × GcHeader × Nat)) (a : Nat) : List (Nat × GcHeader × Nat) :=
  l.map (fun e => if e.1 = a then (e.1, { e.2.1 with marked := true }, e.2.2) else e)

/-- `mark_phase` (gc.rs lines 143-167): clear every mark bit, then mark each
tracked object whose data address is a root.  The source's worklist and
visited set only deduplicate the root set (nothing beyond the roots is ever
pushed), so the loop is one idempotent marking pass over the roots. -/
def GarbageCollector.mark_phase (s : GarbageCollector) : GarbageCollector :=
  { s with objects := List.foldl markRoot (resetMarks s.objects) s.roots }

/-- One removal step of the sweep loop (gc.rs lines 181-199) as it acts on
the tracked-object map and the byte total: remove the entry and subtract
its stored total size.  (The raw `dealloc` call is modelled by the machine
level below.) -/
def sweepStep (s : GarbageCollector) (a : Nat) : GarbageCollector :=
  match assocFind s.objects a with
  | some e =>
      { s with objects := assocErase s.objects a,
               total_allocated := s.total_allocated - e.2 }
  | none => s

/-- `sweep_phase` (gc.rs lines 170-200): gather the data addresses of the
unmarked objects, then remove each one. -/
def GarbageCollector.sweep_phase (s : GarbageCollector) : GarbageCollector :=
  List.foldl sweepStep s ((s.objects.filter (fun e => !e.2.1.marked)).map (·.1))

/-- `collect` (gc.rs lines 203-206). -/
def GarbageCollector.collect (s : GarbageCollector) : GarbageCollector :=
  s.mark_phase.sweep_phase

/-- `stats` (gc.rs lines 209-216): total tracked bytes, tracked object
count, currently-marked object count. -/
def GarbageCollector.stats (s : GarbageCollector) : Nat × Nat × Nat :=
  (s.total_allocated, s.objects.length,
   (s.objects.filter (fun e => e.2.1.marked)).length)

/-- `force_collect` (gc.rs lines 219-223): the freed byte count together
with the collected state. -/
def GarbageCollector.force_collect (s : GarbageCollector) : Nat × GarbageCollector :=
  (s.total_allocated - s.collect.total_allocated, s.collect)

/-- `add_root` (gc.rs lines 133-135), `HashSet::insert`. -/
def GarbageCollector.add_root (s : GarbageCollector) (a : Nat) : GarbageCollector :=
  if a ∈ s.roots then s else { s with roots := a :: s.roots }

/-- `remove_root` (gc.rs lines 138-140), `HashSet::remove`. -/
def GarbageCollector.remove_root (s : GarbageCollector) (a : Nat) : GarbageCollector :=
  { s with roots := s.roots.erase a }

/-- The machine state around the collector: the raw headers reachable
through `GcObject` handles, a log of the raw `alloc` and `dealloc` calls
made to the host allocator (each with its layout size), and the collector
itself. -/
structure GcMachine where
  heap : List (Nat × GcHeader)
  allocLog : List (Nat × Nat)
  deallocLog : List (Nat × Nat)
  gc : GarbageCollector
deriving DecidableEq

/-- `GcObject::is_marked` (gc.rs lines 42-44): read the raw header behind
the handle.  Reading an unallocated address is undefined in Rust; the
default is never exercised by the theorems. -/
def GcObject.is_marked (o : GcObject) (heap : List (Nat × GcHeader)) : Bool :=
  ((assocFind heap o.header).getD { marked := false, size := 0 }).marked

/-- `GcObject::mark` (gc.rs lines 35-39): set the mark bit in the raw
header behind the handle. -/
def GcObject.mark (o : GcObject) (heap : List (Nat × GcHeader)) : List (Nat × GcHeader) :=
  match assocFind heap o.header with
  | some v => assocInsert heap o.header { v with marked := true }
  | none => heap

/-- The layout size handed to `dealloc` by the sweep loop (gc.rs lines
185-188): the stored total size is treated as if it were the data size, so
header overhead is added and rounded a second time. -/
def sweepDeallocSize (total_size : Nat) : Nat := align8 (headerSize + total_size)

/-- One iteration of the sweep removal loop at machine level (gc.rs lines
181-199): remove the map entry, `dealloc` the raw block starting at
`data_ptr - header_size` with the recomputed layout size, and subtract the
stored total size. -/
def GcMachine.sweepStepM (m : GcMachine) (a : Nat) : GcMachine :=
  match assocFind m.gc.objects a with
  | some e =>
      let gc1 : GarbageCollector :=
        { m.gc with objects := assocErase m.gc.objects a,
                    total_allocated := m.gc.total_allocated - e.2 }
      { heap := assocErase m.heap (a - headerSize),
        allocLog := m.allocLog,
        deallocLog := m.deallocLog ++ [(a - headerSize, sweepDeallocSize e.2)],
        gc := gc1 }
  | none => m

/-- `sweep_phase` at machine level (gc.rs lines 170-200). -/
def GcMachine.sweepM (m : GcMachine) : GcMachine :=
  List.foldl GcMachine.sweepStepM m
    ((m.gc.objects.filter (fun e => !e.2.1.marked)).map (·.1))

/-- `collect` at machine level (gc.rs lines 203-206): marking touches only
the collector's map, sweeping releases the raw blocks of the removed
objects. -/
def GcMachine.collectM (m : GcMachine) : GcMachine :=
  GcMachine.sweepM { m with gc := m.gc.mark_phase }

/-- The success tail of `GarbageCollector::allocate` (gc.rs lines 102-128):
write a header at the block start, insert an independent copy of the header
into the tracked-object map keyed by the data address, and grow the byte
total by the rounded size. -/
def GcMachine.finishAlloc (m : GcMachine) (size alignedSize ptr : Nat) :
    Option GcObject × GcMachine :=
  (some { header := ptr, data := ptr + headerSize },
   { heap := assocInsert m.heap ptr { marked := false, size := size },
     allocLog := m.allocLog ++ [(ptr, alignedSize)],
     deallocLog := m.deallocLog,
     gc := { m.gc with
       objects := assocInsert m.gc.objects (ptr + headerSize)
         ({ marked := false, size := size }, alignedSize),
       total_allocated := m.gc.total_allocated + alignedSize } })

/-- `GarbageCollector::allocate` after the threshold check (gc.rs lines
84-129).  `alloc1` and `alloc2` model the host allocator's answers to the
first request and to the retried request, as functions of the requested
layout size. -/
def GcMachine.allocateCore (m : GcMachine) (size : Nat)
    (alloc1 alloc2 : Nat → Option Nat) : Option GcObject × GcMachine :=
  let alignedSize := align8 (headerSize + size)
  match alloc1 alignedSize with
  | some ptr => m.finishAlloc size alignedSize ptr
  | none =>
      let m1 := m.collectM
      match alloc2 alignedSize with
      | some ptr => m1.finishAlloc size alignedSize ptr
      | none => (none, m1)

/-- `GarbageCollector::allocate` (gc.rs lines 78-130). -/
def GcMachine.allocateM (m : GcMachine) (size : Nat)
    (alloc1 alloc2 : Nat → Option Nat) : Option GcObject × GcMachine :=
  if m.gc.threshold ≤ m.gc.total_allocated then
    (m.collectM).allocateCore size alloc1 alloc2
  else
    m.allocateCore size alloc1 alloc2

/-! Arithmetic facts about the rounding helpers. -/

theorem alignUp_ge (n a : Nat) (ha : 0 < a) : n ≤ alignUp n a := by
  unfold alignUp
  have h1 := Nat.div_add_mod (n + a - 1) a
  have h2 : (n + a - 1) % a < a := Nat.mod_lt _ ha
  have h3 : (n + a - 1) / a * a = a * ((n + a - 1) / a) := Nat.mul_comm _ _
  omega

theorem alignUp_lt (n a : Nat) (ha : 0 < a) : alignUp n a < n + a := by
  unfold alignUp
  have h1 := Nat.div_add_mod (n + a - 1) a
  have h3 : (n + a - 1) / a * a = a * ((n + a - 1) / a) := Nat.mul_comm _ _
  omega

theorem alignUp_dvd (n a : Nat) : a ∣ alignUp n a := dvd_mul_left a _

theorem alignUp_of_dvd (n a : Nat) (ha : 0 < a) (h : a ∣ n) : alignUp n a = n := by
  obtain ⟨k, hk⟩ := h
  have hc : a * k = k * a := Nat.mul_comm a k
  have h2 : n + a - 1 = (a - 1) + k * a := by omega
  unfold alignUp
  rw [h2, Nat.add_mul_div_right _ _ ha, Nat.div_eq_of_lt (by omega), Nat.zero_add]
  omega

theorem align8_ge (n : Nat) : n ≤ align8 n := alignUp_ge n 8 (by omega)

theorem align8_lt (n : Nat) : align8 n < n + 8 := alignUp_lt n 8 (by omega)

theorem align8_dvd (n : Nat) : 8 ∣ align8 n := alignUp_dvd n 8

/-! Facts about association lists. -/

theorem assocFind_cons {α : Type} (e : Nat × α) (l : List (Nat × α)) (b : Nat) :
    assocFind (e :: l) b = if e.1 = b then some e.2 else assocFind l b := by
  unfold assocFind
  rw [List.find?_cons]
  by_cases h : e.1 = b
  · have hb : (e.1 == b) = true := by simpa using h
    rw [hb, if_pos h]
    rfl
  · have hb : (e.1 == b) = false := by simpa using h
    rw [hb, if_neg h]

theorem assocErase_cons {α : Type} (e : Nat × α) (l : List (Nat × α)) (a : Nat) :
    assocErase (e :: l) a = if e.1 = a then l else e :: assocErase l a := by
  unfold assocErase
  rw [List.eraseP_cons]
  by_cases h : e.1 = a
  · have hb : (e.1 == a) = true := by simpa using h
    rw [hb, if_pos h, Bool.cond_true]
  · have hb : (e.1 == a) = false := by simpa using h
    rw [hb, if_neg h, Bool.cond_false]

theorem assocFind_erase_ne {α : Type} (l : List (Nat × α)) (a b : Nat) (h : a ≠ b) :
    assocFind (assocErase l a) b = assocFind l b := by
  induction l with
  | nil => rfl
  | cons e t ih =>
      rw [assocErase_cons]
      by_cases he : e.1 = a
      · rw [if_pos he, assocFind_cons, if_neg (by omega)]
      · rw [if_neg he, assocFind_cons, assocFind_cons]
        by_cases hb : e.1 = b
        · rw [if_pos hb, if_pos hb]
        · rw [if_neg hb, if_neg hb, ih]

theorem assocFind_of_mem {α : Type} {l : List (Nat × α)} {a : Nat} {v : α}
    (hk : (l.map (·.1)).Nodup) (h : (a, v) ∈ l) : assocFind l a = some v := by
  induction l with
  | nil => cases h
  | cons e t ih =>
      rw [assocFind_cons]
      rcases List.mem_cons.mp h with h1 | h1
      · rw [← h1]; simp
      · rw [List.map_cons] at hk
        have hk1 := List.nodup_cons.mp hk
        have hne : e.1 ≠ a := by
          intro hea
          exact hk1.1 (hea ▸ List.mem_map.mpr ⟨(a, v), h1, rfl⟩)
        rw [if_neg hne]
        exact ih hk1.2 h1

theorem assocFind_isSome_of_mem {α : Type} {l : List (Nat × α)} {a : Nat}
    (h : a ∈ l.map (·.1)) : (assocFind l a).isSome := by
  induction l with
  | nil => simp at h
  | cons e t ih =>
      rw [assocFind_cons]
      by_cases he : e.1 = a
      · simp [he]
      · simp only [List.map_cons, List.mem_cons] at h
        rcases h with h | h
        · exact absurd h.symm he
        · rw [if_neg he]
          exact ih h

/-! Generic list facts. -/

theorem map_congr_fn {α β : Type} {f g : α → β} (h : ∀ x, f x = g x) :
    ∀ l : List α, l.map f = l.map g := by
  intro l
  induction l with
  | nil => rfl
  | cons x t ih => simp only [List.map_cons, h x, ih]

theorem map_congr_mem {α β : Type} {f g : α → β} :
    ∀ l : List α, (∀ x ∈ l, f x = g x) → l.map f = l.map g := by
  intro l
  induction l with
  | nil => intro _; rfl
  | cons x t ih =>
      intro h
      simp only [List.map_cons]
      rw [h x (by simp), ih (fun y hy => h y (by simp [hy]))]

theorem length_filter_add_compl {α : Type} (p : α → Bool) (l : List α) :
    (l.filter p).length + (l.filter (fun x => !p x)).length = l.length := by
  induction l with
  | nil => rfl
  | cons x t ih => cases hp : p x <;> simp [List.filter_cons, hp] <;> omega

theorem sum_map_filter_le {α : Type} (p : α → Bool) (f : α → Nat) (l : List α) :
    ((l.filter p).map f).sum ≤ (l.map f).sum := by
  induction l with
  | nil => exact Nat.le_refl _
  | cons x t ih => cases hp : p x <;> simp [List.filter_cons, hp] <;> omega

theorem sum_map_pos {α : Type} (f : α → Nat) (l : List α) (x : α)
    (hpos : 0 < f x) : x ∈ l → 0 < (l.map f).sum := by
  induction l with
  | nil => intro hx; cases hx
  | cons y t ih =>
      intro hx
      rcases List.mem_cons.mp hx with h | h
      · subst h; simp only [List.map_cons, List.sum_cons]; omega
      · have := ih h; simp only [List.map_cons, List.sum_cons]; omega

/-! Characterization of the mark phase. -/

theorem foldl_markRoot_eq (rs : List Nat) (l : List (Nat × GcHeader × Nat)) :
    List.foldl markRoot l rs =
      l.map (fun e =>
        if e.1 ∈ rs then (e.1, ({ e.2.1 with marked := true } : GcHeader), e.2.2) else e) := by
  induction rs generalizing l with
  | nil => simp
  | cons r rs ih =>
      rw [List.foldl_cons, ih, markRoot, List.map_map]
      apply map_congr_fn
      intro e
      by_cases h1 : e.1 = r
      · by_cases h2 : e.1 ∈ rs <;> simp [Function.comp, h1, h2]
      · by_cases h2 : e.1 ∈ rs <;> simp [Function.comp, h1, h2]

theorem mark_phase_objects (s : GarbageCollector) :
    s.mark_phase.objects =
      s.objects.map (fun e =>
        (e.1, ({ marked := decide (e.1 ∈ s.roots), size := e.2.1.size } : GcHeader), e.2.2)) := by
  show List.foldl markRoot (resetMarks s.objects) s.roots = _
  rw [foldl_markRoot_eq, resetMarks, List.map_map]
  apply map_congr_fn
  intro e
  by_cases h : e.1 ∈ s.roots <;> simp [Function.comp, h]

theorem mark_phase_roots (s : GarbageCollector) : s.mark_phase.roots = s.roots := rfl

theorem mark_phase_total (s : GarbageCollector) :
    s.mark_phase.total_allocated = s.total_allocated := rfl

theorem mark_phase_threshold (s : GarbageCollector) :
    s.mark_phase.threshold = s.threshold := rfl

theorem mark_phase_keys (s : GarbageCollector) : s.mark_phase.keys = s.keys := by
  unfold GarbageCollector.keys
  rw [mark_phase_objects, List.map_map]
  apply map_congr_fn
  intro e
  rfl

/-! Characterization of the sweep phase. -/

/-- The stored total sizes, as found in `l`, of the addresses `rs`. -/
def sumFind (l : List (Nat × GcHeader × Nat)) (rs : List Nat) : Nat :=
  (rs.map (fun a => ((assocFind l a).getD ({ marked := false, size := 0 }, 0)).2)).sum

theorem sumFind_congr (l l' : List (Nat × GcHeader × Nat)) (rs : List Nat)
    (h : ∀ b ∈ rs, assocFind l b = assocFind l' b) : sumFind l rs = sumFind l' rs := by
  unfold sumFind
  rw [map_congr_mem rs (fun b hb => by rw [h b hb])]

theorem sweep_fold (rs : List Nat) (s : GarbageCollector) (hnd : rs.Nodup)
    (hmem : ∀ a ∈ rs, (assocFind s.objects a).isSome) :
    List.foldl sweepStep s rs =
      { s with objects := List.foldl assocErase s.objects rs,
               total_allocated := s.total_allocated - sumFind s.objects rs } := by
  induction rs generalizing s with
  | nil => simp [sumFind]
  | cons a rs ih =>
      obtain ⟨v, hv⟩ : ∃ v, assocFind s.objects a = some v := by
        have h1 := hmem a (List.mem_cons_self a rs)
        cases h : assocFind s.objects a
        · rw [h] at h1; cases h1
        · exact ⟨_, rfl⟩
      have hnd1 := List.nodup_cons.mp hnd
      have hstep : sweepStep s a =
          { s with objects := assocErase s.objects a,
                   total_allocated := s.total_allocated - v.2 } := by
        unfold sweepStep
        rw [hv]
      have hfind : ∀ b ∈ rs, assocFind (assocErase s.objects a) b = assocFind s.objects b := by
        intro b hb
        exact assocFind_erase_ne _ _ _ (fun hab => hnd1.1 (hab ▸ hb))
      have hih := ih ⟨assocErase s.objects a, s.roots, s.total_allocated - v.2, s.threshold⟩
        hnd1.2
        (fun b hb => by
          show (assocFind (assocErase s.objects a) b).isSome = true
          rw [hfind b hb]
          exact hmem b (List.mem_cons_of_mem a hb))
      rw [List.foldl_cons, hstep, hih,
          show List.foldl assocErase s.objects (a :: rs) =
            List.foldl assocErase (assocErase s.objects a) rs from rfl]
      have hsum : sumFind (assocErase s.objects a) rs = sumFind s.objects rs :=
        sumFind_congr _ _ _ hfind
      have hsumc : sumFind s.objects (a :: rs) = v.2 + sumFind s.objects rs := by
        unfold sumFind
        rw [List.map_cons, List.sum_cons, hv]
        rfl
      rw [hsum, hsumc, Nat.sub_sub]

theorem foldl_assocErase_cons (e : Nat × GcHeader × Nat) (t : List (Nat × GcHeader × Nat))
    (rs : List Nat) (h : ∀ a ∈ rs, a ≠ e.1) :
    List.foldl assocErase (e :: t) rs = e :: List.foldl assocErase t rs := by
  induction rs generalizing t with
  | nil => rfl
  | cons a rs ih =>
      rw [List.foldl_cons, assocErase_cons,
          if_neg (fun he => (h a (List.mem_cons_self a rs)) he.symm), List.foldl_cons]
      exact ih _ (fun b hb => h b (List.mem_cons_of_mem a hb))

theorem mem_keys_of_mem_unmarked {l : List (Nat × GcHeader × Nat)} {a : Nat}
    (h : a ∈ (l.filter (fun e => !e.2.1.marked)).map (·.1)) : a ∈ l.map (·.1) := by
  obtain ⟨e, he, rfl⟩ := List.mem_map.mp h
  exact List.mem_map.mpr ⟨e, (List.mem_filter.mp he).1, rfl⟩

theorem foldl_erase_unmarked (l : List (Nat × GcHeader × Nat))
    (hk : (l.map (·.1)).Nodup) :
    List.foldl assocErase l ((l.filter (fun e => !e.2.1.marked)).map (·.1)) =
      l.filter (fun e => e.2.1.marked) := by
  induction l with
  | nil => rfl
  | cons e t ih =>
      rw [List.map_cons] at hk
      have hk1 := List.nodup_cons.mp hk
      cases hm : e.2.1.marked
      · have h1 : List.filter (fun x => !x.2.1.marked) (e :: t)
            = e :: List.filter (fun x => !x.2.1.marked) t := by
          rw [List.filter_cons, hm]
          simp
        have h2 : List.filter (fun x => x.2.1.marked) (e :: t)
            = List.filter (fun x => x.2.1.marked) t := by
          rw [List.filter_cons, hm]
          simp
        rw [h1, h2, List.map_cons, List.foldl_cons, assocErase_cons, if_pos rfl, ih hk1.2]
      · have h1 : List.filter (fun x => !x.2.1.marked) (e :: t)
            = List.filter (fun x => !x.2.1.marked) t := by
          rw [List.filter_cons, hm]
          simp
        have h2 : List.filter (fun x => x.2.1.marked) (e :: t)
            = e :: List.filter (fun x => x.2.1.marked) t := by
          rw [List.filter_cons, hm]
          simp
        rw [h1, h2,
            foldl_assocErase_cons e t _
              (fun a ha hae => hk1.1 (hae ▸ mem_keys_of_mem_unmarked ha)),
            ih hk1.2]

theorem sumFind_unmarked (l : List (Nat × GcHeader × Nat))
    (hk : (l.map (·.1)).Nodup) :
    sumFind l ((l.filter (fun e => !e.2.1.marked)).map (·.1)) =
      ((l.filter (fun e => !e.2.1.marked)).map (·.2.2)).sum := by
  induction l with
  | nil => rfl
  | cons e t ih =>
      rw [List.map_cons] at hk
      have hk1 := List.nodup_cons.mp hk
      have hcongr : sumFind (e :: t) ((t.filter (fun x => !x.2.1.marked)).map (·.1)) =
          sumFind t ((t.filter (fun x => !x.2.1.marked)).map (·.1)) := by
        apply sumFind_congr
        intro b hb
        rw [assocFind_cons,
            if_neg (fun he => hk1.1 (by rw [he]; exact mem_keys_of_mem_unmarked hb))]
      cases hm : e.2.1.marked
      · have h1 : List.filter (fun x => !x.2.1.marked) (e :: t)
            = e :: List.filter (fun x => !x.2.1.marked) t := by
          rw [List.filter_cons, hm]
          simp
        have hhead : sumFind (e :: t)
            (e.1 :: (t.filter (fun x => !x.2.1.marked)).map (·.1)) =
            e.2.2 + sumFind (e :: t) ((t.filter (fun x => !x.2.1.marked)).map (·.1)) := by
          unfold sumFind
          rw [List.map_cons, List.sum_cons, assocFind_cons, if_pos rfl]
          rfl
        rw [h1, List.map_cons, hhead, hcongr, ih hk1.2, List.map_cons, List.sum_cons]
      · have h1 : List.filter (fun x => !x.2.1.marked) (e :: t)
            = List.filter (fun x => !x.2.1.marked) t := by
          rw [List.filter_cons, hm]
          simp
        rw [h1, hcongr, ih hk1.2]

theorem sweep_phase_spec (s : GarbageCollector) (hk : s.keys.Nodup) :
    s.sweep_phase = { s with
      objects := s.objects.filter (fun e => e.2.1.marked),
      total_allocated := s.total_allocated -
        ((s.objects.filter (fun e => !e.2.1.marked)).map (·.2.2)).sum } := by
  unfold GarbageCollector.sweep_phase
  have hk' : (s.objects.map (·.1)).Nodup := hk
  have hnd : ((s.objects.filter (fun e => !e.2.1.marked)).map (·.1)).Nodup :=
    (((List.filter_sublist s.objects).map (·.1))).nodup hk'
  rw [sweep_fold _ _ hnd
        (fun a ha => assocFind_isSome_of_mem (mem_keys_of_mem_unmarked ha)),
      foldl_erase_unmarked _ hk, sumFind_unmarked _ hk]

/-! Characterization of a full collection cycle. -/

/-- The tracked objects left after one `collect`: those whose data address
is rooted, their mark bit set. -/
def survivors (s : GarbageCollector) : List (Nat × GcHeader × Nat) :=
  (s.objects.filter (fun e => decide (e.1 ∈ s.roots))).map
    (fun e => (e.1, ({ marked := true, size := e.2.1.size } : GcHeader), e.2.2))

/-- The byte total of the tracked objects removed by one `collect`: the
stored sizes of all tracked objects whose data address is not rooted. -/
def sweptBytes (s : GarbageCollector) : Nat :=
  ((s.objects.filter (fun e => decide (e.1 ∉ s.roots))).map (·.2.2)).sum

theorem collect_objects (s : GarbageCollector) (hk : s.keys.Nodup) :
    s.collect.objects = survivors s := by
  unfold GarbageCollector.collect
  have hk2 : s.mark_phase.keys.Nodup := by
    rw [mark_phase_keys]
    exact hk
  rw [sweep_phase_spec _ hk2]
  show s.mark_phase.objects.filter (fun e => e.2.1.marked) = survivors s
  rw [mark_phase_objects, List.filter_map]
  have hp : List.filter
      ((fun (e : Nat × GcHeader × Nat) => e.2.1.marked) ∘
        (fun e => (e.1, ({ marked := decide (e.1 ∈ s.roots), size := e.2.1.size } : GcHeader),
          e.2.2)))
      s.objects
      = List.filter (fun e => decide (e.1 ∈ s.roots)) s.objects :=
    List.filter_congr (fun x _ => rfl)
  rw [hp]
  unfold survivors
  apply map_congr_mem
  intro e he
  have h2 := (List.mem_filter.mp he).2
  simp only [decide_eq_true_eq] at h2
  simp [h2]

theorem collect_total (s : GarbageCollector) (hk : s.keys.Nodup) :
    s.collect.total_allocated = s.total_allocated - sweptBytes s := by
  unfold GarbageCollector.collect
  have hk2 : s.mark_phase.keys.Nodup := by
    rw [mark_phase_keys]
    exact hk
  rw [sweep_phase_spec _ hk2]
  show s.mark_phase.total_allocated - _ = _
  rw [mark_phase_total]
  congr 1
  rw [mark_phase_objects, List.filter_map]
  have hp : List.filter
      ((fun (e : Nat × GcHeader × Nat) => !e.2.1.marked) ∘
        (fun e => (e.1, ({ marked := decide (e.1 ∈ s.roots), size := e.2.1.size } : GcHeader),
          e.2.2)))
      s.objects
      = List.filter (fun e => decide (e.1 ∉ s.roots)) s.objects := by
    apply List.filter_congr
    intro x _
    show (!decide (x.1 ∈ s.roots)) = decide (x.1 ∉ s.roots)
    rw [decide_not]
  rw [hp]
  unfold sweptBytes
  rw [List.map_map]
  congr 1

theorem foldl_sweepStep_roots (rs : List Nat) (s : GarbageCollector) :
    (List.foldl sweepStep s rs).roots = s.roots := by
  induction rs generalizing s with
  | nil => rfl
  | cons a rs ih =>
      rw [List.foldl_cons, ih]
      unfold sweepStep
      cases assocFind s.objects a <;> rfl

theorem foldl_sweepStep_threshold (rs : List Nat) (s : GarbageCollector) :
    (List.foldl sweepStep s rs).threshold = s.threshold := by
  induction rs generalizing s with
  | nil => rfl
  | cons a rs ih =>
      rw [List.foldl_cons, ih]
      unfold sweepStep
      cases assocFind s.objects a <;> rfl

theorem collect_roots (s : GarbageCollector) : s.collect.roots = s.roots := by
  unfold GarbageCollector.collect GarbageCollector.sweep_phase
  rw [foldl_sweepStep_roots, mark_phase_roots]

theorem collect_threshold (s : GarbageCollector) : s.collect.threshold = s.threshold := by
  unfold GarbageCollector.collect GarbageCollector.sweep_phase
  rw [foldl_sweepStep_threshold, mark_phase_threshold]

theorem gc_ext {s t : GarbageCollector} (ho : s.objects = t.objects)
    (hr : s.roots = t.roots) (ht : s.total_allocated = t.total_allocated)
    (hh : s.threshold = t.threshold) : s = t := by
  cases s
  cases t
  congr 1

theorem survivors_keys (s : GarbageCollector) :
    (survivors s).map (·.1) =
      (s.objects.filter (fun e => decide (e.1 ∈ s.roots))).map (·.1) := by
  unfold survivors
  rw [List.map_map]
  apply map_congr_fn
  intro e
  rfl

theorem collect_keys_nodup (s : GarbageCollector) (hk : s.keys.Nodup) :
    s.collect.keys.Nodup := by
  unfold GarbageCollector.keys
  rw [collect_objects s hk, survivors_keys]
  have hk' : (s.objects.map (·.1)).Nodup := hk
  exact ((List.filter_sublist s.objects).map (·.1)).nodup hk'

theorem survivors_collect (s : GarbageCollector) (hk : s.keys.Nodup) :
    survivors s.collect = survivors s := by
  show (s.collect.objects.filter (fun e => decide (e.1 ∈ s.collect.roots))).map
      (fun e => (e.1, ({ marked := true, size := e.2.1.size } : GcHeader), e.2.2)) = survivors s
  rw [collect_roots, collect_objects _ hk]
  have hfil : (survivors s).filter (fun e => decide (e.1 ∈ s.roots)) = survivors s := by
    rw [List.filter_eq_self]
    intro e he
    obtain ⟨e', he', rfl⟩ := List.mem_map.mp he
    simpa using (List.mem_filter.mp he').2
  rw [hfil]
  show (survivors s).map _ = survivors s
  unfold survivors
  rw [List.map_map]
  apply map_congr_fn
  intro e
  rfl

theorem sweptBytes_collect (s : GarbageCollector) (hk : s.keys.Nodup) :
    sweptBytes s.collect = 0 := by
  show ((s.collect.objects.filter (fun e => decide (e.1 ∉ s.collect.roots))).map (·.2.2)).sum = 0
  rw [collect_roots, collect_objects _ hk]
  have hfil : (survivors s).filter (fun e => decide (e.1 ∉ s.roots)) = [] := by
    rw [List.filter_eq_nil_iff]
    intro e he
    obtain ⟨e', he', rfl⟩ := List.mem_map.mp he
    have h2 := (List.mem_filter.mp he').2
    simp only [decide_eq_true_eq] at h2
    simp only [decide_eq_true_eq]
    exact fun hn => hn h2
  rw [hfil]
  rfl

theorem collect_idem (s : GarbageCollector) (hk : s.keys.Nodup) :
    s.collect.collect = s.collect := by
  have hk1 := collect_keys_nodup s hk
  apply gc_ext
  · rw [collect_objects _ hk1, survivors_collect _ hk, collect_objects _ hk]
  · rw [collect_roots]
  · rw [collect_total _ hk1, sweptBytes_collect _ hk, Nat.sub_zero]
  · rw [collect_threshold]

/-- Claim C1: on any collector state (with the `HashMap` invariant of
pairwise-distinct data addresses), `collect` keeps every tracked object
whose data address is in the root set, with its mark bit set; it removes
every tracked object whose data address is not in the root set, so the
object count reported by `stats` drops by the number of unrooted tracked
objects; and any number of repeated `collect` calls gives the same state as
a single one. -/
theorem claim_C1 (s : GarbageCollector) (hk : s.keys.Nodup) :
    (∀ e ∈ s.objects, e.1 ∈ s.roots →
      (e.1, ({ marked := true, size := e.2.1.size } : GcHeader), e.2.2) ∈ s.collect.objects) ∧
    (∀ e ∈ s.objects, e.1 ∉ s.roots → e.1 ∉ s.collect.keys) ∧
    s.collect.stats.2.1 =
      s.stats.2.1 - (s.objects.filter (fun e => decide (e.1 ∉ s.roots))).length ∧
    (∀ n : Nat, GarbageCollector.collect^[n + 1] s = s.collect) := by
  refine ⟨?_, ?_, ?_, ?_⟩
  · intro e he hr
    rw [collect_objects _ hk]
    unfold survivors
    exact List.mem_map.mpr ⟨e, List.mem_filter.mpr ⟨he, by simpa using hr⟩, rfl⟩
  · intro e he hr hmem
    unfold GarbageCollector.keys at hmem
    rw [collect_objects _ hk, survivors_keys] at hmem
    obtain ⟨e', he', h1⟩ := List.mem_map.mp hmem
    have h2 := (List.mem_filter.mp he').2
    simp only [decide_eq_true_eq] at h2
    exact hr (h1 ▸ h2)
  · show s.collect.objects.length = s.objects.length - _
    rw [collect_objects _ hk]
    unfold survivors
    rw [List.length_map]
    have hc := length_filter_add_compl (fun e => decide (e.1 ∈ s.roots)) s.objects
    have hneg : s.objects.filter (fun x => !decide (x.1 ∈ s.roots))
        = s.objects.filter (fun e => decide (e.1 ∉ s.roots)) :=
      List.filter_congr (fun x _ => decide_not.symm)
    rw [← hneg]
    omega
  · intro n
    induction n with
    | zero => rfl
    | succ n ih => rw [Function.iterate_succ_apply', ih, collect_idem s hk]

/-- Concrete collector for the C1 witness: two tracked objects, the first
rooted, the second not. -/
def c1s : GarbageCollector :=
  ⟨[(16, ⟨false, 0⟩, 16), (48, ⟨true, 8⟩, 24)], [16], 40, 100⟩

/-- Witness for C1: on `c1s`, the rooted object at data address 16 survives
with its mark bit set and the object count reported by `stats` drops to 1. -/
theorem claim_C1_witness :
    (16, ({ marked := true, size := 0 } : GcHeader), 16) ∈ c1s.collect.objects ∧
    c1s.collect.stats.2.1 = 1 := by
  have h := claim_C1 c1s (by decide)
  refine ⟨?_, ?_⟩
  · exact h.1 (16, { marked := false, size := 0 }, 16) (by decide) (by decide)
  · rw [h.2.2.1]
    decide

/-- Claim C4: `force_collect` returns the before-minus-after tracked byte
total, which equals the exact byte total of the tracked objects that were
not rooted at the call: 0 when every tracked object is rooted, and positive
otherwise.  The hypotheses are the `allocate`-maintained state invariants:
distinct data addresses, the byte total being the sum of the stored sizes,
and every stored size positive (each is at least `headerSize` by
construction). -/
theorem claim_C4 (s : GarbageCollector) (hk : s.keys.Nodup)
    (htot : s.total_allocated = (s.objects.map (·.2.2)).sum)
    (hpos : ∀ e ∈ s.objects, 0 < e.2.2) :
    s.force_collect.1 = s.total_allocated - s.collect.total_allocated ∧
    s.force_collect.1 = sweptBytes s ∧
    ((∀ e ∈ s.objects, e.1 ∈ s.roots) → s.force_collect.1 = 0) ∧
    ((∃ e ∈ s.objects, e.1 ∉ s.roots) → 0 < s.force_collect.1) := by
  have hle : sweptBytes s ≤ s.total_allocated := by
    rw [htot]
    exact sum_map_filter_le _ _ _
  have hmain : s.force_collect.1 = sweptBytes s := by
    show s.total_allocated - s.collect.total_allocated = sweptBytes s
    rw [collect_total _ hk]
    omega
  refine ⟨rfl, hmain, ?_, ?_⟩
  · intro hall
    rw [hmain]
    unfold sweptBytes
    have hnil : s.objects.filter (fun e => decide (e.1 ∉ s.roots)) = [] := by
      rw [List.filter_eq_nil_iff]
      intro e he
      simp only [decide_eq_true_eq]
      exact fun hn => hn (hall e he)
    rw [hnil]
    rfl
  · rintro ⟨e, he, hr⟩
    rw [hmain]
    unfold sweptBytes
    apply sum_map_pos _ _ e (hpos e he)
    exact List.mem_filter.mpr ⟨he, by simpa using hr⟩

/-- Concrete collector for the C4 witness. -/
def c4s : GarbageCollector :=
  ⟨[(16, ⟨false, 0⟩, 16), (48, ⟨true, 8⟩, 24)], [16], 40, 100⟩

/-- Witness for C4: on `c4s`, whose unrooted object holds 24 bytes,
`force_collect` returns exactly 24, a positive value. -/
theorem claim_C4_witness : c4s.force_collect.1 = 24 ∧ 0 < c4s.force_collect.1 := by
  have h := claim_C4 c4s (by decide) (by decide) (by decide)
  constructor
  · rw [h.2.1]
    decide
  · exact h.2.2.2 ⟨(48, { marked := true, size := 8 }, 24), by decide, by decide⟩

/-- Machines for the C3 run: allocate a 64-byte object (recorded layout
size 80) and collect it with no roots registered. -/
def c3m0 : GcMachine := ⟨[], [], [], ⟨[], [], 0, 1024⟩⟩

def c3m1 : GcMachine := (c3m0.allocateM 64 (fun _ => some 1000) (fun _ => none)).2

def c3m2 : GcMachine := c3m1.collectM

/-- Claim C3 (code bug): the sweep is supposed to release each unmarked
object's backing memory with the stored total size it was allocated with,
but it treats the stored total size as a data size and rounds header
overhead on top of it a second time.  Concretely, a 64-byte object is
allocated with layout size 80 (and 80 is recorded in the map and correctly
subtracted from the byte total), yet the sweep's `dealloc` call uses layout
size 96; in general the sweep layout size strictly exceeds the recorded
allocation size, so release never uses the allocation's own layout. -/
theorem claim_C3 :
    (c3m1.allocLog = [(1000, 80)] ∧
     c3m1.gc.objects = [(1016, { marked := false, size := 64 }, 80)] ∧
     c3m2.deallocLog = [(1000, 96)] ∧
     (1000, 96) ∉ c3m1.allocLog ∧
     c3m2.gc.total_allocated = 0) ∧
    ∀ sz : Nat, align8 (headerSize + sz) < sweepDeallocSize (align8 (headerSize + sz)) := by
  constructor
  · exact ⟨by decide, by decide, by decide, by decide, by decide⟩
  · intro sz
    unfold sweepDeallocSize
    have h := align8_ge (headerSize + align8 (headerSize + sz))
    have h0 : headerSize = 16 := rfl
    omega

/-- Claim C2: `allocate(size)` runs a full cycle first when the tracked
total has reached the threshold; the host request is for
`headerSize + size` rounded up to 8-byte alignment (characterized below as
the least such multiple of 8); if the host request fails, one cycle runs
and the request is retried exactly once before failure is reported; on
success the header is initialized unmarked with the requested size, an
independent copy is registered in the map under the data address, the
tracked total grows by exactly the rounded size, and the returned object
carries the data address `ptr + headerSize`, not the header address
`ptr`. -/
theorem claim_C2 (m : GcMachine) (size : Nat) (alloc1 alloc2 : Nat → Option Nat) :
    (8 ∣ align8 (headerSize + size) ∧ headerSize + size ≤ align8 (headerSize + size) ∧
      align8 (headerSize + size) < headerSize + size + 8) ∧
    (m.gc.threshold ≤ m.gc.total_allocated →
      m.allocateM size alloc1 alloc2 = (m.collectM).allocateCore size alloc1 alloc2) ∧
    (m.gc.total_allocated < m.gc.threshold →
      m.allocateM size alloc1 alloc2 = m.allocateCore size alloc1 alloc2) ∧
    (∀ mm : GcMachine, ∀ ptr : Nat, alloc1 (align8 (headerSize + size)) = some ptr →
      mm.allocateCore size alloc1 alloc2 =
        (some { header := ptr, data := ptr + headerSize },
         (mm.finishAlloc size (align8 (headerSize + size)) ptr).2) ∧
      ptr + headerSize ≠ ptr ∧
      assocFind (mm.allocateCore size alloc1 alloc2).2.gc.objects (ptr + headerSize) =
        some ({ marked := false, size := size }, align8 (headerSize + size)) ∧
      assocFind (mm.allocateCore size alloc1 alloc2).2.heap ptr =
        some { marked := false, size := size } ∧
      (mm.allocateCore size alloc1 alloc2).2.gc.total_allocated =
        mm.gc.total_allocated + align8 (headerSize + size)) ∧
    (∀ mm : GcMachine, ∀ ptr : Nat, alloc1 (align8 (headerSize + size)) = none →
      alloc2 (align8 (headerSize + size)) = some ptr →
      mm.allocateCore size alloc1 alloc2 =
        (some { header := ptr, data := ptr + headerSize },
         ((mm.collectM).finishAlloc size (align8 (headerSize + size)) ptr).2) ∧
      (mm.allocateCore size alloc1 alloc2).2.gc.total_allocated =
        (mm.collectM).gc.total_allocated + align8 (headerSize + size)) ∧
    (∀ mm : GcMachine, alloc1 (align8 (headerSize + size)) = none →
      alloc2 (align8 (headerSize + size)) = none →
      mm.allocateCore size alloc1 alloc2 = (none, mm.collectM)) := by
  refine ⟨⟨align8_dvd _, align8_ge _, align8_lt _⟩, ?_, ?_, ?_, ?_, ?_⟩
  · intro h
    unfold GcMachine.allocateM
    rw [if_pos h]
  · intro h
    unfold GcMachine.allocateM
    rw [if_neg (by omega)]
  · intro mm ptr h1
    refine ⟨?_, by have h0 : headerSize = 16 := rfl; omega, ?_, ?_, ?_⟩
    · simp only [GcMachine.allocateCore, h1, GcMachine.finishAlloc]
    · simp only [GcMachine.allocateCore, h1, GcMachine.finishAlloc]
      unfold assocInsert
      rw [assocFind_cons, if_pos rfl]
    · simp only [GcMachine.allocateCore, h1, GcMachine.finishAlloc]
      unfold assocInsert
      rw [assocFind_cons, if_pos rfl]
    · simp only [GcMachine.allocateCore, h1, GcMachine.finishAlloc]
  · intro mm ptr h1 h2
    refine ⟨?_, ?_⟩
    · simp only [GcMachine.allocateCore, h1, h2, GcMachine.finishAlloc]
    · simp only [GcMachine.allocateCore, h1, h2, GcMachine.finishAlloc]
  · intro mm h1 h2
    simp only [GcMachine.allocateCore, h1, h2]

/-- Machine for the C2 witness: an empty collector below its threshold. -/
def c2m : GcMachine := ⟨[], [], [], ⟨[], [], 0, 100⟩⟩

/-- Witness for C2: allocating 4 bytes at host address 1000 returns the
data address 1016 (= 1000 + header overhead), registers the unmarked header
copy with rounded size 24 in the map, and grows the tracked total to 24. -/
theorem claim_C2_witness :
    (c2m.allocateM 4 (fun _ => some 1000) (fun _ => none)).1 =
      some { header := 1000, data := 1016 } ∧
    assocFind (c2m.allocateM 4 (fun _ => some 1000) (fun _ => none)).2.gc.objects 1016 =
      some ({ marked := false, size := 4 }, 24) ∧
    (c2m.allocateM 4 (fun _ => some 1000) (fun _ => none)).2.gc.total_allocated = 24 := by
  have h := claim_C2 c2m 4 (fun _ => some 1000) (fun _ => none)
  have h3 := h.2.2.1 (by decide)
  have hs := h.2.2.2.1 c2m 1000 rfl
  refine ⟨?_, ?_, ?_⟩
  · rw [h3, hs.1]
    rfl
  · rw [h3]
    exact hs.2.2.1
  · rw [h3, hs.2.2.2.2]
    decide

/-! Machine-level facts about `collectM`. -/

theorem foldl_sweepStepM_heap (rs : List Nat) (m : GcMachine) (b : Nat)
    (h : ∀ a ∈ rs, a - headerSize ≠ b) :
    assocFind (List.foldl GcMachine.sweepStepM m rs).heap b = assocFind m.heap b := by
  induction rs generalizing m with
  | nil => rfl
  | cons a rs ih =>
      rw [List.foldl_cons, ih _ (fun x hx => h x (List.mem_cons_of_mem a hx))]
      unfold GcMachine.sweepStepM
      cases hf : assocFind m.gc.objects a
      · rfl
      · show assocFind (assocErase m.heap (a - headerSize)) b = assocFind m.heap b
        exact assocFind_erase_ne _ _ _ (h a (List.mem_cons_self a rs))

theorem foldl_sweepStepM_gc (rs : List Nat) (m : GcMachine) :
    (List.foldl GcMachine.sweepStepM m rs).gc = List.foldl sweepStep m.gc rs := by
  induction rs generalizing m with
  | nil => rfl
  | cons a rs ih =>
      rw [List.foldl_cons, List.foldl_cons, ih]
      congr 1
      unfold GcMachine.sweepStepM sweepStep
      cases assocFind m.gc.objects a <;> rfl

theorem collectM_gc (m : GcMachine) : m.collectM.gc = m.gc.collect := by
  unfold GcMachine.collectM GcMachine.sweepM GarbageCollector.collect
    GarbageCollector.sweep_phase
  rw [foldl_sweepStepM_gc]

theorem unmarked_key_not_root (s : GarbageCollector) (a : Nat)
    (h : a ∈ (s.mark_phase.objects.filter (fun e => !e.2.1.marked)).map (·.1)) :
    a ∈ s.keys ∧ a ∉ s.roots := by
  rw [mark_phase_objects] at h
  obtain ⟨e, he, rfl⟩ := List.mem_map.mp h
  have h1 := List.mem_filter.mp he
  obtain ⟨e', he', rfl⟩ := List.mem_map.mp h1.1
  constructor
  · exact List.mem_map.mpr ⟨e', he', rfl⟩
  · have h2 : (!decide (e'.1 ∈ s.roots)) = true := h1.2
    simp only [Bool.not_eq_true', decide_eq_false_iff_not] at h2
    exact h2

/-- Claim C10: `collect` never changes what `is_marked` reads through a
surviving handle.  `allocate` materializes two independent unmarked header
copies (one raw header at the block start, read by the handle, and one
inside the map), the mark phase sets mark bits only on the map's copy, and
so after a collection in which the handle's object was rooted and survived,
the raw header is untouched: `is_marked` still reads `false` unless `mark`
was called on the handle itself, even though the map's copy is marked.
The hypotheses are the collector invariants: distinct data addresses, the
handle layout `data = header + headerSize`, all data addresses at least
`headerSize`, the raw header present, and the handle's address rooted. -/
theorem claim_C10 (m : GcMachine) (o : GcObject) (hv : GcHeader)
    (hnd : m.gc.keys.Nodup)
    (hdata : o.data = o.header + headerSize)
    (hkeys : ∀ a ∈ m.gc.keys, headerSize ≤ a)
    (hheap : assocFind m.heap o.header = some hv)
    (hroot : o.data ∈ m.gc.roots) :
    (assocFind m.collectM.heap o.header = some hv ∧
     o.is_marked m.collectM.heap = o.is_marked m.heap ∧
     (hv.marked = false → o.is_marked m.collectM.heap = false)) ∧
    (o.data ∈ m.gc.keys →
      ∃ sz asz, assocFind m.collectM.gc.objects o.data =
        some ({ marked := true, size := sz }, asz)) ∧
    (∀ (mm : GcMachine) (sz ptr : Nat) (a2 : Nat → Option Nat),
      assocFind (mm.allocateCore sz (fun _ => some ptr) a2).2.heap ptr =
        some { marked := false, size := sz } ∧
      assocFind (mm.allocateCore sz (fun _ => some ptr) a2).2.gc.objects (ptr + headerSize) =
        some ({ marked := false, size := sz }, align8 (headerSize + sz))) := by
  have hpres : assocFind m.collectM.heap o.header = assocFind m.heap o.header := by
    unfold GcMachine.collectM GcMachine.sweepM
    apply foldl_sweepStepM_heap
    intro a ha
    have h1 := unmarked_key_not_root m.gc a ha
    intro hcontra
    have h16 := hkeys a h1.1
    have hao : a = o.data := by omega
    exact h1.2 (hao ▸ hroot)
  refine ⟨⟨by rw [hpres, hheap], ?_, ?_⟩, ?_, ?_⟩
  · unfold GcObject.is_marked
    rw [hpres]
  · intro hm
    unfold GcObject.is_marked
    rw [hpres, hheap]
    exact hm
  · intro hmem
    rw [collectM_gc, collect_objects _ hnd]
    obtain ⟨e', he', hfst⟩ := List.mem_map.mp hmem
    refine ⟨e'.2.1.size, e'.2.2, ?_⟩
    apply assocFind_of_mem
    · show ((survivors m.gc).map (·.1)).Nodup
      rw [survivors_keys]
      exact ((List.filter_sublist m.gc.objects).map (·.1)).nodup
        (show (m.gc.objects.map (·.1)).Nodup from hnd)
    · unfold survivors
      apply List.mem_map.mpr
      refine ⟨e', List.mem_filter.mpr ⟨he', ?_⟩, ?_⟩
      · simp only [decide_eq_true_eq]
        rw [hfst]
        exact hroot
      · rw [hfst]
  · intro mm sz ptr a2
    constructor
    · simp only [GcMachine.allocateCore, GcMachine.finishAlloc]
      unfold assocInsert
      rw [assocFind_cons, if_pos rfl]
    · simp only [GcMachine.allocateCore, GcMachine.finishAlloc]
      unfold assocInsert
      rw [assocFind_cons, if_pos rfl]

/-- Machine for the C10 witness: one tracked, rooted 4-byte object with its
raw header at 1000 and data address 1016. -/
def c10m : GcMachine :=
  ⟨[(1000, ⟨false, 4⟩)], [(1000, 24)], [], ⟨[(1016, ⟨false, 4⟩, 24)], [1016], 24, 100⟩⟩

/-- Witness for C10: after a collection on `c10m` the surviving handle's
`is_marked` still reads `false` and its raw header is unchanged. -/
theorem claim_C10_witness :
    GcObject.is_marked ⟨1000, 1016⟩ c10m.collectM.heap = false ∧
    assocFind c10m.collectM.heap 1000 = some { marked := false, size := 4 } := by
  have h := claim_C10 c10m ⟨1000, 1016⟩ ⟨false, 4⟩ (by decide) (by decide) (by decide)
    (by decide) (by decide)
  exact ⟨h.1.2.2 rfl, h.1.1⟩

/-! The bump allocator: claim C7. -/

/-- Claim C7 (amended): on a well-formed bump allocator and a power-of-two
alignment, a successful `allocate(n, align)` returns an address that is
aligned, at least `start`, leaves room for `n` bytes below `stop` (hence
lies in `[start, stop)` whenever `n > 0` — for `n = 0` the address can
equal `stop`, the correction the counterexample forces), and advances
`used()` by exactly `n` plus the alignment padding consumed; if the aligned
region would extend past `stop`, the call returns out-of-memory with the
state unchanged. -/
theorem claim_C7 (b : BumpAllocator) (n align : Nat)
    (hpow : ∃ k : Nat, align = 2 ^ k)
    (hwf : b.start ≤ b.current ∧ b.current ≤ b.stop) :
    (∀ addr b1, b.allocate n align = (some addr, b1) →
      align ∣ addr ∧ b.start ≤ addr ∧ addr + n ≤ b.stop ∧ (0 < n → addr < b.stop) ∧
      b1.used = b.used + (addr - b.current) + n ∧
      b1.start = b.start ∧ b1.stop = b.stop ∧ b1.size = b.size) ∧
    (b.stop < alignUp b.current align + n → b.allocate n align = (none, b)) := by
  have hapos : 0 < align := by
    obtain ⟨k, rfl⟩ := hpow
    positivity
  have hge := alignUp_ge b.current align hapos
  constructor
  · intro addr b1 heq
    simp only [BumpAllocator.allocate] at heq
    by_cases hc : b.stop < alignUp b.current align + n
    · rw [if_pos hc] at heq
      exact absurd (congrArg Prod.fst heq) (by simp)
    · rw [if_neg hc] at heq
      have h1 : alignUp b.current align = addr := by
        simpa using congrArg Prod.fst heq
      have h2 : ({ b with current := alignUp b.current align + n } : BumpAllocator) = b1 := by
        simpa using congrArg Prod.snd heq
      subst h1
      subst h2
      refine ⟨alignUp_dvd _ _, by omega, by omega, by omega, ?_, rfl, rfl, rfl⟩
      show alignUp b.current align + n - b.start =
        (b.current - b.start) + (alignUp b.current align - b.current) + n
      omega
  · intro hc
    simp only [BumpAllocator.allocate]
    rw [if_pos hc]

/-- Counterexample to C7 as stated: on a full allocator (reachable from
`new(8)` at base 8 followed by `allocate(8, 8)`), the zero-size call
`allocate(0, 1)` succeeds and returns the address 16, which does not lie
within `[start, stop) = [8, 16)`. -/
theorem claim_C7_counterexample :
    BumpAllocator.new 8 (some 8) = some ⟨8, 8, 16, 8⟩ ∧
    (BumpAllocator.mk 8 8 16 8).allocate 8 8 = (some 8, ⟨8, 16, 16, 8⟩) ∧
    (BumpAllocator.mk 8 16 16 8).allocate 0 1 = (some 16, ⟨8, 16, 16, 8⟩) ∧
    ¬(16 < (BumpAllocator.mk 8 16 16 8).stop) := by
  exact ⟨by decide, by decide, by decide, by decide⟩

/-- Witness for C7: on the fresh 8-byte allocator at base 8, `allocate(4, 8)`
returns the aligned address 8 with no padding and `used()` grows by 4. -/
theorem claim_C7_witness :
    (BumpAllocator.mk 8 8 16 8).allocate 4 8 = (some 8, ⟨8, 12, 16, 8⟩) ∧
    (8 : Nat) ∣ 8 ∧
    (BumpAllocator.mk 8 12 16 8).used = (BumpAllocator.mk 8 8 16 8).used + (8 - 8) + 4 := by
  have h := (claim_C7 ⟨8, 8, 16, 8⟩ 4 8 ⟨3, rfl⟩ (by exact ⟨by decide, by decide⟩)).1 8
    ⟨8, 12, 16, 8⟩ (by decide)
  exact ⟨by decide, h.1, h.2.2.2.2.1⟩

/-! The memory pool: claims C8 and C9. -/

/-- Claim C9: `deallocate(addr)` silently rejects an address below the
pool's base, at or beyond `pool_start + pool_size`, or whose offset from the
base is not an exact multiple of the pool's block size — the pool state and
`free_count()` are unchanged; an address passing both checks is pushed onto
the free list. -/
theorem claim_C9 (p : MemoryPool) (addr : Nat) :
    ((addr < p.poolStart ∨ p.poolStart + p.pool_size ≤ addr ∨
        ¬(addr - p.poolStart) % p.block_size = 0) →
      p.deallocate addr = p ∧ (p.deallocate addr).free_count = p.free_count) ∧
    ((p.poolStart ≤ addr ∧ addr < p.poolStart + p.pool_size ∧
        (addr - p.poolStart) % p.block_size = 0) →
      (p.deallocate addr).free_list = addr :: p.free_list) := by
  constructor
  · intro h
    have heq : p.deallocate addr = p := by
      unfold MemoryPool.deallocate
      rcases h with h | h | h
      · rw [if_neg (by omega)]
      · rw [if_neg (by omega)]
      · by_cases hr : p.poolStart ≤ addr ∧ addr < p.poolStart + p.pool_size
        · rw [if_pos hr, if_neg h]
        · rw [if_neg hr]
    exact ⟨heq, by rw [heq]⟩
  · intro h
    unfold MemoryPool.deallocate
    rw [if_pos ⟨h.1, h.2.1⟩, if_pos h.2.2]

/-- Pool for the C9 witness: a fresh two-slot pool of 8-byte blocks at
base 64 (the value of `MemoryPool.new 8 2 64`). -/
def c9p : MemoryPool := ⟨8, [64, 72], [72, 64], 16⟩

/-- Witness for C9: the out-of-range address 63 and the misaligned address
65 are rejected without a state change, while the valid slot address 64 is
pushed onto the free list. -/
theorem claim_C9_witness :
    c9p.deallocate 63 = c9p ∧ (c9p.deallocate 63).free_count = 2 ∧
    c9p.deallocate 65 = c9p ∧
    (c9p.deallocate 64).free_list = 64 :: c9p.free_list := by
  have h1 := (claim_C9 c9p 63).1 (Or.inl (by decide))
  have h2 := (claim_C9 c9p 65).1 (Or.inr (Or.inr (by decide)))
  have h3 := (claim_C9 c9p 64).2 ⟨by decide, by decide, by decide⟩
  refine ⟨h1.1, ?_, h2.1, h3⟩
  rw [h1.1]
  decide

/-- One client call against a pool. -/
inductive PoolOp where
  | alloc : PoolOp
  | dealloc : Nat → PoolOp
deriving DecidableEq

/-- Apply one client call to a pool. -/
def poolStep (p : MemoryPool) : PoolOp → MemoryPool
  | PoolOp.alloc => (p.allocate).2
  | PoolOp.dealloc a => p.deallocate a

/-- Run a sequence of client calls. -/
def runPool (p : MemoryPool) (ops : List PoolOp) : MemoryPool :=
  List.foldl poolStep p ops

/-- Call sequences in which every `deallocate` is matched: the freed address
is a slot of the pool that is currently allocated (off the free list). -/
inductive ValidOps : MemoryPool → List PoolOp → Prop where
  | nil (p : MemoryPool) : ValidOps p []
  | alloc (p : MemoryPool) (ops : List PoolOp) :
      ValidOps (p.allocate).2 ops → ValidOps p (PoolOp.alloc :: ops)
  | dealloc (p : MemoryPool) (a : Nat) (ops : List PoolOp) :
      a ∈ p.blocks → a ∉ p.free_list →
      ValidOps (p.deallocate a) ops → ValidOps p (PoolOp.dealloc a :: ops)

/-- The pool's free-list invariant: no duplicate entries and every entry is
one of the pool's slots. -/
def PoolInv (p : MemoryPool) : Prop :=
  p.free_list.Nodup ∧ ∀ a ∈ p.free_list, a ∈ p.blocks

theorem poolInv_alloc (p : MemoryPool) (hinv : PoolInv p) : PoolInv (p.allocate).2 := by
  have h1 := hinv.1
  have h2 := hinv.2
  unfold MemoryPool.allocate
  cases hfl : p.free_list with
  | nil => exact hinv
  | cons x rest =>
      rw [hfl] at h1 h2
      refine ⟨(List.nodup_cons.mp h1).2, ?_⟩
      intro b hb
      exact h2 b (List.mem_cons_of_mem x hb)

theorem poolInv_dealloc (p : MemoryPool) (a : Nat) (ha : a ∈ p.blocks)
    (hf : a ∉ p.free_list) (hinv : PoolInv p) : PoolInv (p.deallocate a) := by
  unfold MemoryPool.deallocate
  by_cases h1 : p.poolStart ≤ a ∧ a < p.poolStart + p.pool_size
  · rw [if_pos h1]
    by_cases h2 : (a - p.poolStart) % p.block_size = 0
    · rw [if_pos h2]
      refine ⟨List.nodup_cons.mpr ⟨hf, hinv.1⟩, ?_⟩
      intro x hx
      rcases List.mem_cons.mp hx with h | h
      · exact h ▸ ha
      · exact hinv.2 x h
    · rw [if_neg h2]
      exact hinv
  · rw [if_neg h1]
    exact hinv

theorem poolStep_blocks (p : MemoryPool) (op : PoolOp) : (poolStep p op).blocks = p.blocks := by
  cases op with
  | alloc =>
      show ((p.allocate).2).blocks = p.blocks
      unfold MemoryPool.allocate
      cases p.free_list <;> rfl
  | dealloc a =>
      show (p.deallocate a).blocks = p.blocks
      unfold MemoryPool.deallocate
      by_cases h1 : p.poolStart ≤ a ∧ a < p.poolStart + p.pool_size
      · rw [if_pos h1]
        by_cases h2 : (a - p.poolStart) % p.block_size = 0
        · rw [if_pos h2]
        · rw [if_neg h2]
      · rw [if_neg h1]

theorem allocate_free_sub (p : MemoryPool) (x : Nat) (hx : x ∉ p.free_list) :
    x ∉ (p.allocate).2.free_list := by
  unfold MemoryPool.allocate
  cases hfl : p.free_list with
  | nil => exact hx
  | cons y rest =>
      intro hmem
      apply hx
      rw [hfl]
      exact List.mem_cons_of_mem y hmem

theorem allocate_nodup_pop (p : MemoryPool) (hn : p.free_list.Nodup) (x : Nat)
    (q : MemoryPool) (heq : p.allocate = (some x, q)) : x ∉ q.free_list := by
  unfold MemoryPool.allocate at heq
  cases hfl : p.free_list with
  | nil =>
      rw [hfl] at heq
      exact absurd (congrArg Prod.fst heq) (by simp)
  | cons y rest =>
      rw [hfl] at heq hn
      have hxy : y = x := by simpa using congrArg Prod.fst heq
      have hq : ({ p with free_list := rest } : MemoryPool) = q := by
        simpa using congrArg Prod.snd heq
      rw [← hq]
      show x ∉ rest
      rw [← hxy]
      exact (List.nodup_cons.mp hn).1

/-- Claim C8 (amended): after any sequence of `allocate`/`deallocate` calls
in which every `deallocate` frees a currently-allocated slot,
`allocated_count() + free_count()` equals the pool's total slot count, the
free list holds no address twice (so a matched `deallocate` returns an
address exactly once), a freshly popped address is off the free list, and
an address stays off the free list through any further calls that do not
deallocate it.  Without the matched-deallocate restriction the claim fails:
see the counterexample, where a double `deallocate` puts the same address
on the free list twice. -/
theorem claim_C8 (p : MemoryPool) (ops : List PoolOp)
    (hinv : PoolInv p) (hv : ValidOps p ops) :
    PoolInv (runPool p ops) ∧
    (runPool p ops).blocks = p.blocks ∧
    (runPool p ops).allocated_count + (runPool p ops).free_count =
      (runPool p ops).blocks.length ∧
    (∀ x, (runPool p ops).free_list.count x ≤ 1) ∧
    (∀ x q, (runPool p ops).allocate = (some x, q) → x ∉ q.free_list) ∧
    (∀ x, x ∉ p.free_list → (∀ op ∈ ops, op ≠ PoolOp.dealloc x) →
      x ∉ (runPool p ops).free_list) := by
  have core : ∀ (p : MemoryPool) (ops : List PoolOp), ValidOps p ops → PoolInv p →
      PoolInv (runPool p ops) ∧ (runPool p ops).blocks = p.blocks ∧
      (∀ x, x ∉ p.free_list → (∀ op ∈ ops, op ≠ PoolOp.dealloc x) →
        x ∉ (runPool p ops).free_list) := by
    intro p ops hv
    induction hv with
    | nil p => intro hinv; exact ⟨hinv, rfl, fun x hx _ => hx⟩
    | alloc p ops hrec ih =>
        intro hinv
        have h1 := ih (poolInv_alloc p hinv)
        refine ⟨h1.1, ?_, ?_⟩
        · show (runPool (poolStep p PoolOp.alloc) ops).blocks = p.blocks
          rw [show poolStep p PoolOp.alloc = (p.allocate).2 from rfl, h1.2.1]
          exact poolStep_blocks p PoolOp.alloc
        · intro x hx hops
          exact h1.2.2 x (allocate_free_sub p x hx)
            (fun op hop => hops op (List.mem_cons_of_mem _ hop))
    | dealloc p a ops ha hf hrec ih =>
        intro hinv
        have h1 := ih (poolInv_dealloc p a ha hf hinv)
        refine ⟨h1.1, ?_, ?_⟩
        · show (runPool (poolStep p (PoolOp.dealloc a)) ops).blocks = p.blocks
          rw [show poolStep p (PoolOp.dealloc a) = p.deallocate a from rfl, h1.2.1]
          exact poolStep_blocks p (PoolOp.dealloc a)
        · intro x hx hops
          have hax : a ≠ x := by
            intro he
            have hcontra := hops (PoolOp.dealloc a) (List.mem_cons_self _ _)
            rw [he] at hcontra
            exact hcontra rfl
          have hx2 : x ∉ (p.deallocate a).free_list := by
            unfold MemoryPool.deallocate
            by_cases hc1 : p.poolStart ≤ a ∧ a < p.poolStart + p.pool_size
            · rw [if_pos hc1]
              by_cases hc2 : (a - p.poolStart) % p.block_size = 0
              · rw [if_pos hc2]
                intro hmem
                rcases List.mem_cons.mp hmem with h | h
                · exact hax h.symm
                · exact hx h
              · rw [if_neg hc2]
                exact hx
            · rw [if_neg hc1]
              exact hx
          exact h1.2.2 x hx2 (fun op hop => hops op (List.mem_cons_of_mem _ hop))
  have hcore := core p ops hv hinv
  have hInv := hcore.1
  have hlen : (runPool p ops).free_list.length ≤ (runPool p ops).blocks.length :=
    (hInv.1.subperm (fun a ha => hInv.2 a ha)).length_le
  refine ⟨hInv, hcore.2.1, ?_, ?_, ?_, hcore.2.2⟩
  · unfold MemoryPool.allocated_count MemoryPool.free_count
    omega
  · intro x
    exact List.nodup_iff_count_le_one.mp hInv.1 x
  · intro x q heq
    exact allocate_nodup_pop _ hInv.1 x q heq

/-- Pool for the C8 counterexample: a fresh two-slot pool of 8-byte blocks
at base 64. -/
def c8p : MemoryPool := ⟨8, [64, 72], [72, 64], 16⟩

/-- Counterexample to C8 as stated: after `allocate()` returns 72, two
`deallocate(72)` calls both pass the range and alignment checks, so 72 sits
on the free list twice — the matching deallocate has returned it more than
once — and `allocated_count() + free_count()` is 3 on a two-slot pool
(in Rust the subtraction inside `allocated_count` underflows). -/
theorem claim_C8_counterexample :
    MemoryPool.new 8 2 64 = some c8p ∧
    (c8p.allocate).1 = some 72 ∧
    (((c8p.allocate).2.deallocate 72).deallocate 72).free_list.count 72 = 2 ∧
    (((c8p.allocate).2.deallocate 72).deallocate 72).allocated_count +
      (((c8p.allocate).2.deallocate 72).deallocate 72).free_count = 3 ∧
    c8p.blocks.length = 2 := by
  exact ⟨by decide, by decide, by decide, by decide, by decide⟩

/-- Pool and call sequence for the C8 witness. -/
def c8w : MemoryPool := ⟨8, [64, 72], [72, 64], 16⟩

def c8ops : List PoolOp := [PoolOp.alloc, PoolOp.dealloc 72, PoolOp.alloc, PoolOp.alloc]

/-- Witness for C8: a matched allocate/deallocate sequence that drains the
pool keeps `allocated_count + free_count` at the slot count 2, and no
address is on the free list twice. -/
theorem claim_C8_witness :
    (runPool c8w c8ops).allocated_count + (runPool c8w c8ops).free_count = 2 ∧
    (runPool c8w c8ops).free_list.count 72 ≤ 1 := by
  have hv : ValidOps c8w c8ops := by
    apply ValidOps.alloc
    apply ValidOps.dealloc
    · decide
    · decide
    · apply ValidOps.alloc
      apply ValidOps.alloc
      exact ValidOps.nil _
  have h := claim_C8 c8w c8ops ⟨by decide, by decide⟩ hv
  constructor
  · rw [h.2.2.1, h.2.1]
    decide
  · exact h.2.2.2.1 72

/-! The arena: claims C5 and C6. -/

theorem poolLoop_none (pools : List MemoryPool) (size align : Nat)
    (h : ∀ q ∈ pools,
      ¬(size ≤ q.block_size ∧ q.block_size % align = 0) ∨ q.free_list = []) :
    poolLoop pools size align = (none, pools) := by
  induction pools with
  | nil => rfl
  | cons p ps ih =>
      have htail := ih (fun q hq => h q (List.mem_cons_of_mem p hq))
      simp only [poolLoop]
      rcases h p (List.mem_cons_self p ps) with hp | hp
      · rw [if_neg hp, htail]
      · by_cases hc : size ≤ p.block_size ∧ p.block_size % align = 0
        · rw [if_pos hc]
          have hpa : p.allocate = (none, p) := by
            unfold MemoryPool.allocate
            rw [hp]
          rw [hpa, htail]
        · rw [if_neg hc, htail]

theorem poolLoop_found (l1 : List MemoryPool) (p : MemoryPool) (l2 : List MemoryPool)
    (size align : Nat) (x : Nat) (rest : List Nat)
    (h1 : ∀ q ∈ l1,
      ¬(size ≤ q.block_size ∧ q.block_size % align = 0) ∨ q.free_list = [])
    (hp1 : size ≤ p.block_size) (hp2 : p.block_size % align = 0)
    (hp3 : p.free_list = x :: rest) :
    poolLoop (l1 ++ p :: l2) size align =
      (some x, l1 ++ { p with free_list := rest } :: l2) := by
  induction l1 with
  | nil =>
      simp only [List.nil_append, poolLoop]
      rw [if_pos ⟨hp1, hp2⟩]
      have hpa : p.allocate = (some x, { p with free_list := rest }) := by
        unfold MemoryPool.allocate
        rw [hp3]
      rw [hpa]
  | cons q l1 ih =>
      have htail := ih (fun r hr => h1 r (List.mem_cons_of_mem q hr))
      simp only [List.cons_append, poolLoop, List.append_eq]
      rcases h1 q (List.mem_cons_self q l1) with hq | hq
      · rw [if_neg hq, htail]
      · by_cases hc : size ≤ q.block_size ∧ q.block_size % align = 0
        · rw [if_pos hc]
          have hqa : q.allocate = (none, q) := by
            unfold MemoryPool.allocate
            rw [hq]
          rw [hqa, htail]
        · rw [if_neg hc, htail]

/-- Claim C5 (amended): the pools are scanned in construction order and the
request is served from the first pool that both fits it (block size at
least the request, block size divisible by the alignment) and has a free
slot — a fitting pool with an empty free list is skipped, the scan
continuing with later pools; only when no pool fits with a free slot is the
request delegated to the bump-allocator tier.  (The claim as stated —
delegation as soon as the first fitting pool is empty — fails; see the
counterexample.) -/
theorem claim_C5 (a : Arena) (size align : Nat) (newBase : Option Nat) :
    (∀ l1 p l2 x rest,
      a.pools = l1 ++ p :: l2 →
      (∀ q ∈ l1, ¬(size ≤ q.block_size ∧ q.block_size % align = 0) ∨ q.free_list = []) →
      size ≤ p.block_size → p.block_size % align = 0 → p.free_list = x :: rest →
      a.allocate size align newBase =
        (some x, { a with pools := l1 ++ { p with free_list := rest } :: l2 })) ∧
    ((∀ q ∈ a.pools, ¬(size ≤ q.block_size ∧ q.block_size % align = 0) ∨ q.free_list = []) →
      a.allocate size align newBase = a.allocateFromBumps size align newBase) := by
  constructor
  · intro l1 p l2 x rest hsplit h1 hp1 hp2 hp3
    unfold Arena.allocate
    rw [hsplit, poolLoop_found l1 p l2 size align x rest h1 hp1 hp2 hp3]
  · intro h
    unfold Arena.allocate
    rw [poolLoop_none a.pools size align h]

/-- Arena for the C5 witness: the first pool fits 8-byte requests but is
empty; the second fits and has free slots. -/
def c5wa : Arena :=
  ⟨[⟨1000, 1000, 1256, 256⟩], 0, 256,
   [⟨8, [96], [], 8⟩, ⟨16, [200, 216], [216, 200], 32⟩]⟩

/-- Witness for C5 (amended): `allocate(8, 8)` on `c5wa` skips the empty
8-byte pool and is served slot 216 from the 16-byte pool, which alone is
popped. -/
theorem claim_C5_witness :
    c5wa.allocate 8 8 none =
      (some 216, { c5wa with pools := [⟨8, [96], [], 8⟩, ⟨16, [200, 216], [200], 32⟩] }) := by
  have h := (claim_C5 c5wa 8 8 none).1 [⟨8, [96], [], 8⟩] ⟨16, [200, 216], [216, 200], 32⟩ []
    216 [200] rfl (by decide) (by decide) (by decide) rfl
  exact h

/-- The arena of the C5 counterexample: a fresh `Arena::new(256)` (bump
allocator at base 1048576, pool bases 65536/131072/196608/262144/327680)
after 256 `allocate(8, 8)` calls have drained the 8-byte pool. -/
def c5a0 : Arena :=
  (Arena.new 256 1048576 [65536, 131072, 196608, 262144, 327680]).getD ⟨[], 0, 0, []⟩

def c5a : Arena := List.foldl (fun a _ => (a.allocate 8 8 none).2) c5a0 (List.range 256)

/-- Modelled from the claim's words: the first pool in order whose block
size is at least the request and evenly divisible by the alignment. -/
def firstMatchingPool (pools : List MemoryPool) (size align : Nat) : Option MemoryPool :=
  pools.find? (fun p => decide (size ≤ p.block_size) && decide (p.block_size % align = 0))

section

set_option maxRecDepth 8000
set_option maxHeartbeats 1600000

/-- Counterexample to C5 as stated: on `c5a` the first matching pool for an
`(8, 8)` request is the 8-byte pool, whose free list is empty, so the claim
says the request is delegated to the current bump allocator — which would
return its base 1048576.  The code instead serves slot 135152 from the
16-byte pool. -/
theorem claim_C5_counterexample :
    (firstMatchingPool c5a.pools 8 8).map MemoryPool.free_list = some [] ∧
    (c5a.allocators.get? c5a.current_allocator).map (fun b => (b.allocate 8 8).1) =
      some (some 1048576) ∧
    (c5a.allocate 8 8 none).1 = some 135152 ∧
    (135152 : Nat) ≠ 1048576 := by
  exact ⟨by decide, by decide, by decide, by decide⟩

end

theorem list_set_self {α : Type} : ∀ (l : List α) (i : Nat) (x : α),
    l.get? i = some x → l.set i x = l := by
  intro l
  induction l with
  | nil => intro i x h; cases h
  | cons y t ih =>
      intro i x h
      cases i with
      | zero =>
          have : y = x := by simpa using h
          rw [← this]
          rfl
      | succ i =>
          show y :: t.set i x = y :: t
          rw [ih i x (by simpa using h)]

theorem bump_allocate_none (bb : BumpAllocator) (size align : Nat)
    (h : (bb.allocate size align).1 = none) : bb.allocate size align = (none, bb) := by
  unfold BumpAllocator.allocate at h ⊢
  by_cases hc : bb.stop < alignUp bb.current align + size
  · rw [if_pos hc]
  · rw [if_neg hc] at h
    exact absurd h (by simp)

/-- Claim C6 (amended): when no pool fits the request with a free slot and
the current bump allocator is exhausted, a fresh bump allocator of capacity
`max(allocator_size, size * 2)` — at least twice the request — is built at
a host-supplied base `b` and the request is attempted from it.  If that
attempt succeeds, the fresh allocator is appended, made current, and the
request is served from it; success is unconditional whenever the alignment
divides the 8-byte host alignment of the fresh base.  But if the aligned
request does not fit even the fresh allocator — possible when the
alignment exceeds the 8-byte guarantee the code asks of the host — the
call reports failure and the arena's allocator collection is unchanged, so
the claim's unconditional grow-and-succeed does not hold (see the
counterexample). -/
theorem claim_C6 (a : Arena) (size align b : Nat) (bump : BumpAllocator)
    (hpools : ∀ q ∈ a.pools,
      ¬(size ≤ q.block_size ∧ q.block_size % align = 0) ∨ q.free_list = [])
    (hcur : a.allocators.get? a.current_allocator = some bump)
    (hfull : (bump.allocate size align).1 = none)
    (hsize : 0 < size) :
    size * 2 ≤ max a.allocator_size (size * 2) ∧
    (∀ addr nb1,
      (BumpAllocator.mk b b (b + max a.allocator_size (size * 2))
          (max a.allocator_size (size * 2))).allocate size align = (some addr, nb1) →
      a.allocate size align (some b) =
        (some addr, { a with
          allocators := a.allocators ++ [nb1],
          current_allocator := a.allocators.length })) ∧
    (b % 8 = 0 → align ∣ 8 →
      a.allocate size align (some b) =
        (some b, { a with
          allocators := a.allocators ++ [⟨b, b + size,
            b + max a.allocator_size (size * 2), max a.allocator_size (size * 2)⟩],
          current_allocator := a.allocators.length })) ∧
    (((BumpAllocator.mk b b (b + max a.allocator_size (size * 2))
          (max a.allocator_size (size * 2))).allocate size align).1 = none →
      a.allocate size align (some b) = (none, a)) := by
  have hszpos : ¬(max a.allocator_size (size * 2) = 0) := by
    have := le_max_right a.allocator_size (size * 2)
    omega
  have hbump : bump.allocate size align = (none, bump) :=
    bump_allocate_none bump size align hfull
  have hnew : BumpAllocator.new (max a.allocator_size (size * 2)) (some b) =
      some ⟨b, b, b + max a.allocator_size (size * 2), max a.allocator_size (size * 2)⟩ := by
    unfold BumpAllocator.new
    rw [if_neg hszpos]
  have hgrow : ∀ addr nb1,
      (BumpAllocator.mk b b (b + max a.allocator_size (size * 2))
          (max a.allocator_size (size * 2))).allocate size align = (some addr, nb1) →
      a.allocate size align (some b) =
        (some addr, { a with
          allocators := a.allocators ++ [nb1],
          current_allocator := a.allocators.length }) := by
    intro addr nb1 hsucc
    unfold Arena.allocate
    rw [poolLoop_none a.pools size align hpools]
    show Arena.allocateFromBumps a size align (some b) = _
    simp only [Arena.allocateFromBumps, hcur, hbump, hnew, hsucc,
      list_set_self _ _ _ hcur]
  refine ⟨le_max_right _ _, hgrow, ?_, ?_⟩
  · intro hb8 halign
    have hapos : 0 < align := Nat.pos_of_dvd_of_pos halign (by omega)
    have halignb : alignUp b align = b :=
      alignUp_of_dvd b align hapos (dvd_trans halign (Nat.dvd_of_mod_eq_zero hb8))
    have hnewsize : size ≤ max a.allocator_size (size * 2) :=
      le_trans (by omega) (le_max_right _ _)
    apply hgrow
    simp only [BumpAllocator.allocate, halignb]
    rw [if_neg (by omega)]
  · intro hfail
    have hfail2 := bump_allocate_none _ size align hfail
    unfold Arena.allocate
    rw [poolLoop_none a.pools size align hpools]
    show Arena.allocateFromBumps a size align (some b) = _
    simp only [Arena.allocateFromBumps, hcur, hbump, hnew, hfail2,
      list_set_self _ _ _ hcur]

/-- Arena for the C6 counterexample: no pools, a full 8-byte allocator,
configured allocator size 8. -/
def c6c : Arena := ⟨[⟨8, 16, 16, 8⟩], 0, 8, []⟩

/-- Counterexample to C6 as stated: on `c6c` the call `allocate(4, 16)`
reaches the growth path — no pool exists and the current allocator rejects
the request — and the host supplies the fresh base 8, which honours the
8-byte alignment `BumpAllocator::new` asks for (`Layout::from_size_align(_,
8)`) but is not 16-byte aligned.  The fresh allocator of capacity
`max(8, 4 * 2) = 8` cannot fit the 16-aligned 4-byte request
(`alignUp 8 16 + 4 = 20 > 16`), so the call fails and appends no allocator,
where the claim promises success by growing. -/
theorem claim_C6_counterexample :
    (c6c.allocators.get? c6c.current_allocator).map (fun bp => (bp.allocate 4 16).1) =
      some none ∧
    (8 : Nat) % 8 = 0 ∧
    c6c.allocate 4 16 (some 8) = (none, c6c) ∧
    (c6c.allocate 4 16 (some 8)).2.allocators.length = 1 := by
  exact ⟨by decide, by decide, by decide, by decide⟩

/-- Arena for the C6 witness: no pools, a full 16-byte bump allocator. -/
def c6a : Arena := ⟨[⟨8, 24, 24, 16⟩], 0, 16, []⟩

/-- Witness for C6 (amended): a 20-byte request with 8-byte alignment
(larger than the configured 16-byte allocator size) grows the arena with a
fresh 40-byte allocator at host base 1000, makes it current, and is served
from it; the fresh capacity is at least twice the request. -/
theorem claim_C6_witness :
    c6a.allocate 20 8 (some 1000) =
      (some 1000, { c6a with
        allocators := [⟨8, 24, 24, 16⟩, ⟨1000, 1020, 1040, 40⟩],
        current_allocator := 1 }) ∧
    20 * 2 ≤ max c6a.allocator_size (20 * 2) := by
  have h := claim_C6 c6a 20 8 1000 ⟨8, 24, 24, 16⟩ (by intro q hq; cases hq)
    (by decide) (by decide) (by decide)
  constructor
  · rw [h.2.2.1 (by decide) ⟨1, rfl⟩]
    decide
  · exact h.1

end PainRuntime
